import Mathlib

/-!
Verification of the whoisthere packet-statistics program (src/main.rs, src/data.rs).

The development shallowly embeds the program's data model and operations:

* addresses (`Ipv4Addr`, `Ipv6Addr`) as tuples of bounded machine words, together
  with their Rust textual rendering (`Display`) and parsing (`FromStr`) semantics,
  which `StatsKey`'s serde implementations in src/data.rs rely on;
* the statistics table (`Stats`, a `HashMap` in Rust) as an association list with
  lookup/insert, mutated only by `update_db`;
* 128-bit accumulators as `Nat` with explicit reduction modulo `2 ^ 128`, the
  release-mode semantics of Rust's `u128` wrapping `+=`;
* the frame classifier `proc_packet` over byte lists, with the bounds checks and
  field offsets that the pnet packet constructors/accessors perform;
* the capture-loop step and the HTTP query handler as state transformers.
-/

/-- The modulus of Rust's `u128` arithmetic: `total_length`/`total_count` in
src/data.rs are `u128`, and `+=` wraps modulo `2 ^ 128` in release builds. -/
def U128MOD : Nat := 2 ^ 128

/-! ## Characters and digits

Rust renders `Ipv4Addr` octets in decimal (`u8` `Display`) and `Ipv6Addr`
segments in lowercase hex without leading zeros (`u16` `LowerHex`); its address
parsers read decimal octets (max 3 digits, no leading zero) and hex groups
(max 4 digits, either case). These are the character-level primitives. -/

/-- Decimal digit character for a value below 10 (ASCII '0' is 48). -/
def decDigit (n : Nat) : Char := Char.ofNat (48 + n)

/-- Hex digit character, lowercase, as produced by Rust's `{:x}` formatting. -/
def hexDigit (n : Nat) : Char := if n < 10 then Char.ofNat (48 + n) else Char.ofNat (87 + n)

/-- Whether a character is an ASCII decimal digit. -/
def isDigitChar (c : Char) : Bool := 48 ≤ c.toNat && c.toNat ≤ 57

/-- Whether a character is an ASCII hex digit (either case), as accepted by
Rust's `char::to_digit(16)` used by the address parsers. -/
def isHexDigitChar (c : Char) : Bool :=
  (48 ≤ c.toNat && c.toNat ≤ 57) || (97 ≤ c.toNat && c.toNat ≤ 102) ||
    (65 ≤ c.toNat && c.toNat ≤ 70)

/-- Numeric value of a decimal digit character. -/
def decVal (c : Char) : Nat := c.toNat - 48

/-- Numeric value of a hex digit character (either case). -/
def hexVal (c : Char) : Nat :=
  if c.toNat ≤ 57 then c.toNat - 48
  else if 97 ≤ c.toNat then c.toNat - 87
  else c.toNat - 55

/-- Decimal rendering of a `u8` value (at most three digits, no leading zero),
matching Rust's `Display` for the octets of an `Ipv4Addr`. -/
def decChars (n : Nat) : List Char :=
  if n < 10 then [decDigit n]
  else if n < 100 then [decDigit (n / 10), decDigit (n % 10)]
  else [decDigit (n / 100), decDigit (n / 10 % 10), decDigit (n % 10)]

/-- Lowercase-hex rendering of a `u16` value (no leading zeros), matching
Rust's `{:x}` used for the segments of an `Ipv6Addr`. -/
def hexChars (n : Nat) : List Char :=
  if n < 16 then [hexDigit n]
  else if n < 256 then [hexDigit (n / 16), hexDigit (n % 16)]
  else if n < 4096 then [hexDigit (n / 256), hexDigit (n / 16 % 16), hexDigit (n % 16)]
  else [hexDigit (n / 4096), hexDigit (n / 256 % 16), hexDigit (n / 16 % 16), hexDigit (n % 16)]

/-! ## Splitting

src/data.rs splits the serialized key on the separator string `" -> "`
(`str::split`, leftmost non-overlapping matches); the address parsers consume
`'.'`- and `':'`-separated groups.  `splitOnChar` and `splitArrow` model the
resulting decompositions. -/

/-- Split a character list at every occurrence of a separator character. -/
def splitOnChar (sep : Char) : List Char → List (List Char)
  | [] => [[]]
  | c :: rest =>
    if c = sep then [] :: splitOnChar sep rest
    else
      match splitOnChar sep rest with
      | [] => [[c]]
      | r :: rs => (c :: r) :: rs

/-- Split a character list at every (leftmost, non-overlapping) occurrence of
the four-character separator of src/data.rs, space dash greater space. -/
def splitArrow (cs : List Char) : List (List Char) :=
  match cs with
  | [] => [[]]
  | c :: rest =>
    if c = ' ' ∧ rest.take 3 = ['-', '>', ' '] then [] :: splitArrow (rest.drop 3)
    else
      match splitArrow rest with
      | [] => [[c]]
      | r :: rs => (c :: r) :: rs
termination_by cs.length
decreasing_by
  all_goals simp [List.length_drop]
  all_goals omega

/-- Split at the leftmost occurrence of two adjacent colons, returning the text
before and after it; `none` when no double colon occurs.  This is where Rust's
IPv6 parser switches from the head groups to the tail groups. -/
def splitDoubleColon : List Char → Option (List Char × List Char)
  | [] => none
  | [_] => none
  | c :: d :: rest =>
    if c = ':' ∧ d = ':' then some ([], rest)
    else (splitDoubleColon (d :: rest)).map (fun ab => (c :: ab.1, ab.2))

/-- Join character lists with single colons between them, as Rust's `Ipv6Addr`
`Display` writes the groups on either side of a compressed zero run. -/
def joinColon : List (List Char) → List Char
  | [] => []
  | [p] => p
  | p :: q :: rest => p ++ ':' :: joinColon (q :: rest)

/-- Option-valued map over a list, failing when any element fails: the shape of
serde's sequential field parsing. -/
def mapOpt (f : α → Option β) : List α → Option (List β)
  | [] => some []
  | x :: xs =>
    match f x, mapOpt f xs with
    | some y, some ys => some (y :: ys)
    | _, _ => none

/-! ## IPv4 addresses -/

/-- An IPv4 address: four octets, as in Rust's `std::net::Ipv4Addr`. -/
structure Ipv4Addr where
  o0 : Fin 256
  o1 : Fin 256
  o2 : Fin 256
  o3 : Fin 256
deriving DecidableEq

/-- Parse one decimal octet, with Rust `Ipv4Addr` `FromStr` semantics: at least
one digit, no leading zero (unless the octet is exactly "0"), value below 256. -/
def parseOctet (cs : List Char) : Option (Fin 256) :=
  if cs = [] then none
  else if ¬ (cs.all isDigitChar = true) then none
  else if 1 < cs.length ∧ cs.headD '0' = '0' then none
  else
    let v := cs.foldl (fun acc c => acc * 10 + decVal c) 0
    if hv : v < 256 then some ⟨v, hv⟩ else none

/-- Parse a full dotted-quad IPv4 address (exactly four octets), with Rust
`Ipv4Addr` `FromStr` semantics. -/
def parseV4core (cs : List Char) : Option Ipv4Addr :=
  match mapOpt parseOctet (splitOnChar '.' cs) with
  | some [a, b, c, d] => some ⟨a, b, c, d⟩
  | _ => none

/-- Textual form of an IPv4 address, matching Rust's `Ipv4Addr` `Display`. -/
def Ipv4Addr.display (a : Ipv4Addr) : List Char :=
  decChars a.o0.val ++ '.' ::
    (decChars a.o1.val ++ '.' :: (decChars a.o2.val ++ '.' :: decChars a.o3.val))

/-! ## IPv6 addresses -/

/-- An IPv6 address: eight 16-bit segments, as in Rust's `std::net::Ipv6Addr`
(`segments()` view, big-endian order). -/
structure Ipv6Addr where
  s0 : Fin 65536
  s1 : Fin 65536
  s2 : Fin 65536
  s3 : Fin 65536
  s4 : Fin 65536
  s5 : Fin 65536
  s6 : Fin 65536
  s7 : Fin 65536
deriving DecidableEq

/-- The eight segments of an IPv6 address as a list of naturals. -/
def Ipv6Addr.segments (x : Ipv6Addr) : List Nat :=
  [x.s0.val, x.s1.val, x.s2.val, x.s3.val, x.s4.val, x.s5.val, x.s6.val, x.s7.val]

/-- First longest run of zero segments (start, length), mirroring the fold in
Rust's `Ipv6Addr` `Display` (a strictly longer current run replaces the
longest).  The fold only inspects whether each segment is zero, so it takes the
booleans.  State: (longest span, current span, index). -/
def findZeroRun (zs : List Bool) : Nat × Nat :=
  (zs.foldl
    (fun st z =>
      if z then
        let cs := if st.2.1.2 = 0 then st.2.2 else st.2.1.1
        let cl := st.2.1.2 + 1
        if st.1.2 < cl then ((cs, cl), (cs, cl), st.2.2 + 1)
        else (st.1, (cs, cl), st.2.2 + 1)
      else (st.1, (0, 0), st.2.2 + 1))
    ((0, 0), (0, 0), 0)).1

/-- Textual form of an IPv6 address, matching Rust's `Ipv6Addr` `Display`:
an IPv4-mapped address prints as a double colon, "ffff" and the embedded
dotted quad; otherwise the first longest run of at least two zero segments is
compressed to a double colon, and the remaining groups print in lowercase hex
joined by colons. -/
def Ipv6Addr.display (x : Ipv6Addr) : List Char :=
  if x.s0.val = 0 ∧ x.s1.val = 0 ∧ x.s2.val = 0 ∧ x.s3.val = 0 ∧ x.s4.val = 0 ∧
      x.s5.val = 65535 then
    ':' :: ':' :: 'f' :: 'f' :: 'f' :: 'f' :: ':' ::
      Ipv4Addr.display
        ⟨⟨x.s6.val / 256, by have := x.s6.isLt; omega⟩,
         ⟨x.s6.val % 256, by have := x.s6.isLt; omega⟩,
         ⟨x.s7.val / 256, by have := x.s7.isLt; omega⟩,
         ⟨x.s7.val % 256, by have := x.s7.isLt; omega⟩⟩
  else
    let segs := x.segments
    let r := findZeroRun (segs.map (fun s => s == 0))
    if 1 < r.2 then
      joinColon ((segs.take r.1).map hexChars) ++ ':' :: ':' ::
        joinColon ((segs.drop (r.1 + r.2)).map hexChars)
    else
      joinColon (segs.map hexChars)

/-- Parse one hex group of an IPv6 address, with Rust `FromStr` semantics:
one to four hex digits, leading zeros allowed, value below 65536 by width. -/
def parseHexGroup (cs : List Char) : Option Nat :=
  if cs ≠ [] ∧ cs.length ≤ 4 ∧ cs.all isHexDigitChar = true then
    some (cs.foldl (fun acc c => acc * 16 + hexVal c) 0)
  else none

/-- The two 16-bit groups contributed by an embedded trailing IPv4 address
inside an IPv6 literal (Rust `read_groups`' IPv4 trailer case). -/
def v4ToGroups (a : Ipv4Addr) : List Nat :=
  [a.o0.val * 256 + a.o1.val, a.o2.val * 256 + a.o3.val]

/-- Parse a colon-separated group sequence in which only the final group may be
an embedded dotted-quad IPv4 address (contributing two 16-bit groups), as in
Rust's `read_groups`. -/
def parseTailGroups : List (List Char) → Option (List Nat)
  | [] => some []
  | [p] =>
    match parseHexGroup p with
    | some g => some [g]
    | none =>
      match parseV4core p with
      | some a => some (v4ToGroups a)
      | none => none
  | p :: q :: rest =>
    match parseHexGroup p, parseTailGroups (q :: rest) with
    | some g, some gs => some (g :: gs)
    | _, _ => none

/-- Parse the group sequence before a double colon: pure hex groups only
(Rust rejects an embedded IPv4 address before a double colon); empty text
means zero groups. -/
def parseHeadGroups (l : List Char) : Option (List Nat) :=
  if l = [] then some [] else mapOpt parseHexGroup (splitOnChar ':' l)

/-- Parse the group sequence after a double colon (possibly ending in an
embedded IPv4 address); empty text means zero groups. -/
def parseTailSide (r : List Char) : Option (List Nat) :=
  if r = [] then some [] else parseTailGroups (splitOnChar ':' r)

/-- Parse an IPv6 literal into its eight segments, with Rust `Ipv6Addr`
`FromStr` semantics: without a double colon, exactly eight groups; with one,
head groups (hex only) plus tail groups (possibly ending in an embedded IPv4
address) totalling at most seven, the gap filled with zero segments. -/
def parseV6core (cs : List Char) : Option (List Nat) :=
  match splitDoubleColon cs with
  | none =>
    match parseTailGroups (splitOnChar ':' cs) with
    | some gs => if gs.length = 8 then some gs else none
    | none => none
  | some (l, r) =>
    match parseHeadGroups l, parseTailSide r with
    | some h, some t =>
      if h.length + t.length ≤ 7 then
        some (h ++ List.replicate (8 - h.length - t.length) 0 ++ t)
      else none
    | _, _ => none

/-- Pack a natural below 65536 into a segment. -/
def mk16 (n : Nat) : Option (Fin 65536) := if h : n < 65536 then some ⟨n, h⟩ else none

/-- Rebuild an `Ipv6Addr` from a list of eight segment values. -/
def segsToAddr (gs : List Nat) : Option Ipv6Addr :=
  match mapOpt mk16 gs with
  | some [a, b, c, d, e, f, g, h] => some ⟨a, b, c, d, e, f, g, h⟩
  | _ => none

/-- Parse a full IPv6 address, with Rust `Ipv6Addr` `FromStr` semantics. -/
def parseV6 (cs : List Char) : Option Ipv6Addr :=
  match parseV6core cs with
  | some gs => segsToAddr gs
  | none => none

/-! ## Statistics keys and table (src/data.rs) -/

/-- `Ipv4StatsKey`: ordered (source, dest) pair of IPv4 addresses. -/
structure Ipv4StatsKey where
  source : Ipv4Addr
  dest : Ipv4Addr
deriving DecidableEq

/-- `Ipv6StatsKey`: ordered (source, dest) pair of IPv6 addresses. -/
structure Ipv6StatsKey where
  source : Ipv6Addr
  dest : Ipv6Addr
deriving DecidableEq

/-- `StatsKey`: a newtype over `Either<Ipv4StatsKey, Ipv6StatsKey>`
(`Sum.inl` is `Either::Left`, the IPv4 variant).  Equality is the derived
structural equality, exactly as Rust derives `PartialEq`/`Eq`. -/
structure StatsKey where
  val : Sum Ipv4StatsKey Ipv6StatsKey
deriving DecidableEq

/-- Character form of `StatsKey::serialize`: `"{source} -> {dest}"` using the
family's address `Display`. -/
def StatsKey.serializeChars (k : StatsKey) : List Char :=
  match k.val with
  | Sum.inl v4 => v4.source.display ++ ' ' :: '-' :: '>' :: ' ' :: v4.dest.display
  | Sum.inr v6 => v6.source.display ++ ' ' :: '-' :: '>' :: ' ' :: v6.dest.display

/-- `StatsKey`'s serde `Serialize`: the key as a string. -/
def StatsKey.serialize (k : StatsKey) : String := String.mk (StatsKey.serializeChars k)

/-- `StatsKey`'s serde `Deserialize` (src/data.rs): split on `" -> "`, demand
exactly two parts, decide the family by whether the source part contains a
colon, and parse both parts in that family. -/
def StatsKey.deserialize (s : String) : Option StatsKey :=
  match splitArrow s.data with
  | [source, dest] =>
    if ':' ∈ source then
      match parseV6 source, parseV6 dest with
      | some a, some b => some ⟨Sum.inr ⟨a, b⟩⟩
      | _, _ => none
    else
      match parseV4core source, parseV4core dest with
      | some a, some b => some ⟨Sum.inl ⟨a, b⟩⟩
      | _, _ => none
  | _ => none

/-- `StatsValue`: the per-key aggregate record with `u128` fields. -/
structure StatsValue where
  total_length : Nat
  total_count : Nat
deriving DecidableEq

/-- `StatsValue::new()`: both accumulators start at zero. -/
def StatsValue.new : StatsValue := StatsValue.mk 0 0

/-- `Stats`: the aggregation table, a `HashMap<StatsKey, StatsValue>` modelled
as an association list (key order carries no meaning in the map). -/
abbrev Stats := List (StatsKey × StatsValue)

/-- Map lookup. -/
def lookupKV (t : Stats) (k : StatsKey) : Option StatsValue :=
  match t with
  | [] => none
  | (k', v) :: rest => if k = k' then some v else lookupKV rest k

/-- Map insert-or-replace (`HashMap::insert` semantics: an existing key keeps
its slot, a new key is added). -/
def insertKV (t : Stats) (k : StatsKey) (v : StatsValue) : Stats :=
  match t with
  | [] => [(k, v)]
  | (k', v') :: rest => if k = k' then (k, v) :: rest else (k', v') :: insertKV rest k v

/-- `update_db` (src/data.rs and src/main.rs, identical): find or create the
entry for the key, then `total_count += 1` and `total_length += length`, both
`u128` additions reduced modulo `2 ^ 128`. -/
def update_db (db : Stats) (stats : StatsKey × Nat) : Stats :=
  let entry := (lookupKV db stats.1).getD StatsValue.new
  let entry1 := StatsValue.mk entry.total_length ((entry.total_count + 1) % U128MOD)
  let entry2 := StatsValue.mk ((entry1.total_length + stats.2) % U128MOD) entry1.total_count
  insertKV db stats.1 entry2

/-- Folding a sequence of classified observations into an initially empty
table, the cumulative effect of the capture loop's `update_db` calls. -/
def applyObservations (obs : List (StatsKey × Nat)) : Stats :=
  obs.foldl update_db []

/-- How many observations in a sequence carry exactly the given key. -/
def countKey (obs : List (StatsKey × Nat)) (k : StatsKey) : Nat :=
  (obs.filter (fun o => o.1 = k)).length

/-- Sum of the declared lengths of the observations carrying the given key. -/
def sumKey (obs : List (StatsKey × Nat)) (k : StatsKey) : Nat :=
  ((obs.filter (fun o => o.1 = k)).map (fun o => o.2)).sum

/-! ## Serialization of the table

serde_json renders `Stats` as one JSON object: an entry per key, the key
rendered by `StatsKey::serialize`, the value an object of two integers.  The
document is modelled as the list of (string key, value) members;
deserialization parses each key and inserts the entries in document order
(serde's map visitor). -/

/-- Serialize the table: each entry becomes a (serialized key, value) member. -/
def Stats.serialize (t : Stats) : List (String × StatsValue) :=
  t.map (fun e => (StatsKey.serialize e.1, e.2))

/-- Deserialization worker: parse each member's key and insert in order. -/
def deserializeLoop : List (String × StatsValue) → Stats → Option Stats
  | [], acc => some acc
  | e :: rest, acc =>
    match StatsKey.deserialize e.1 with
    | some k => deserializeLoop rest (insertKV acc k e.2)
    | none => none

/-- Deserialize a persisted document back into a table. -/
def Stats.deserialize (doc : List (String × StatsValue)) : Option Stats :=
  deserializeLoop doc []

/-- The `HashMap` invariant: every key occurs at most once. -/
def distinctKeys (t : Stats) : Prop := List.Pairwise (fun a b => a.1 ≠ b.1) t

instance (t : Stats) : Decidable (distinctKeys t) := by
  unfold distinctKeys
  infer_instance

/-! ## Frame classification (proc_packet, src/main.rs)

pnet semantics used by the code: `EthernetPacket::new` needs at least 14 bytes
(destination MAC 6, source MAC 6, ethertype 2) and exposes the rest as payload;
`Ipv4Packet::new` needs at least 20 bytes, with the total-length field at
offsets 2-3 and addresses at 12-15/16-19; `Ipv6Packet::new` needs at least 40
bytes, with the payload-length field at offsets 4-5 and addresses at
8-23/24-39.  All fields are big-endian. -/

/-- One byte of a captured frame. -/
abbrev Byte := Fin 256

/-- Big-endian 16-bit value from two bytes. -/
def be16 (hi lo : Byte) : Nat := hi.val * 256 + lo.val

/-- An IPv6 segment from two bytes. -/
def mkSeg (hi lo : Byte) : Fin 65536 := ⟨hi.val * 256 + lo.val, by omega⟩

/-- The ethertype for IPv4 (0x0800). -/
def EtherTypeIpv4 : Nat := 2048

/-- The ethertype for IPv6 (0x86DD). -/
def EtherTypeIpv6 : Nat := 34525

/-- `proc_packet` (src/main.rs): classify one captured frame, returning the
address pair and the declared length from the network-layer header, or `none`
on any failure (frame too small, IP header too small, unsupported ethertype). -/
def proc_packet (packet : List Byte) : Option (StatsKey × Nat) :=
  if packet.length < 14 then none
  else
    let ethertype := be16 (packet.getD 12 0) (packet.getD 13 0)
    let payload := packet.drop 14
    if ethertype = EtherTypeIpv4 then
      if payload.length < 20 then none
      else
        some (⟨Sum.inl ⟨⟨payload.getD 12 0, payload.getD 13 0, payload.getD 14 0,
                          payload.getD 15 0⟩,
                        ⟨payload.getD 16 0, payload.getD 17 0, payload.getD 18 0,
                          payload.getD 19 0⟩⟩⟩,
              be16 (payload.getD 2 0) (payload.getD 3 0))
    else if ethertype = EtherTypeIpv6 then
      if payload.length < 40 then none
      else
        some (⟨Sum.inr ⟨⟨mkSeg (payload.getD 8 0) (payload.getD 9 0),
                         mkSeg (payload.getD 10 0) (payload.getD 11 0),
                         mkSeg (payload.getD 12 0) (payload.getD 13 0),
                         mkSeg (payload.getD 14 0) (payload.getD 15 0),
                         mkSeg (payload.getD 16 0) (payload.getD 17 0),
                         mkSeg (payload.getD 18 0) (payload.getD 19 0),
                         mkSeg (payload.getD 20 0) (payload.getD 21 0),
                         mkSeg (payload.getD 22 0) (payload.getD 23 0)⟩,
                        ⟨mkSeg (payload.getD 24 0) (payload.getD 25 0),
                         mkSeg (payload.getD 26 0) (payload.getD 27 0),
                         mkSeg (payload.getD 28 0) (payload.getD 29 0),
                         mkSeg (payload.getD 30 0) (payload.getD 31 0),
                         mkSeg (payload.getD 32 0) (payload.getD 33 0),
                         mkSeg (payload.getD 34 0) (payload.getD 35 0),
                         mkSeg (payload.getD 36 0) (payload.getD 37 0),
                         mkSeg (payload.getD 38 0) (payload.getD 39 0)⟩⟩⟩,
              be16 (payload.getD 4 0) (payload.getD 5 0))
    else none

/-! ## The capture loop and the HTTP server (src/main.rs) -/

/-- The state the capture loop can touch: the shared in-memory table behind the
mutex, and the contents of the (hypothetical) persisted storage document. -/
structure SysState where
  db : Stats
  storage : List (String × StatsValue)

/-- One iteration of the capture loop's body on a received frame: classify
with `proc_packet`; on success take the lock and `update_db`; nothing else
happens before the loop polls the next frame.  In particular no code in
src/main.rs writes the storage. -/
def capture_step (s : SysState) (packet : List Byte) : SysState :=
  match proc_packet packet with
  | some p => SysState.mk (update_db s.db p) s.storage
  | none => s

/-- The HTTP request handler (src/main.rs): lock the table, serialize the
snapshot as the JSON response, release; it returns the response document and
the table it leaves behind. -/
def http_handler (db : Stats) : List (String × StatsValue) × Stats :=
  (Stats.serialize db, db)

/-! ## Concrete example values used by witnesses and counterexamples -/

/-- Example IPv4 address 10.0.0.1. -/
def addrA : Ipv4Addr := ⟨10, 0, 0, 1⟩

/-- Example IPv4 address 10.0.0.2. -/
def addrB : Ipv4Addr := ⟨10, 0, 0, 2⟩

/-- Example IPv4-family key 10.0.0.1 to 10.0.0.2. -/
def keyA : StatsKey := ⟨Sum.inl ⟨addrA, addrB⟩⟩

/-- Example IPv6 address ::1. -/
def addr6A : Ipv6Addr := ⟨0, 0, 0, 0, 0, 0, 0, 1⟩

/-- Example IPv6 address 2001:db8::3. -/
def addr6B : Ipv6Addr := ⟨8193, 3512, 0, 0, 0, 0, 0, 3⟩

/-- Example IPv6-family key ::1 to 2001:db8::3. -/
def key6 : StatsKey := ⟨Sum.inr ⟨addr6A, addr6B⟩⟩

/-- Example mixed-family table: the spec scenario counts. -/
def tableEx : Stats := [(keyA, ⟨150, 2⟩), (key6, ⟨60, 1⟩)]

/-- A well-formed Ethernet+IPv4 frame, 34 bytes: ethertype 0x0800, IPv4 header
with total-length field 100, source 10.0.0.1, destination 10.0.0.2. -/
def v4frame : List Byte :=
  [0, 0, 0, 0, 0, 0, 0, 0, 0, 0, 0, 0, 8, 0,
   69, 0, 0, 100, 0, 0, 0, 0, 64, 6, 0, 0, 10, 0, 0, 1, 10, 0, 0, 2]

/-- A frame declaring IPv6 (ethertype 0x86DD) whose IP payload has only 39
bytes, one short of the 40-byte IPv6 header. -/
def pkt6short : List Byte := List.replicate 12 0 ++ [134, 221] ++ List.replicate 39 0

/-- A frame declaring an unsupported ethertype (0x0806, ARP). -/
def pktunk : List Byte := List.replicate 12 0 ++ [8, 6] ++ List.replicate 50 0

/-! ## Character-level lemmas -/

/-- Reading back a decimal digit recovers its value, the digit is a digit
character, and it is none of the separator characters. -/
theorem decDigit_facts : ∀ m : Fin 10,
    decVal (decDigit m.val) = m.val ∧ isDigitChar (decDigit m.val) = true ∧
      decDigit m.val ≠ ':' ∧ decDigit m.val ≠ ' ' ∧ decDigit m.val ≠ '.' := by decide

/-- A decimal digit character is '0' exactly for the value zero. -/
theorem decDigit_eq_zero : ∀ m : Fin 10, (decDigit m.val = '0') ↔ m.val = 0 := by decide

/-- Reading back a hex digit recovers its value, the digit is a hex digit
character, and it is none of the separator characters. -/
theorem hexDigit_facts : ∀ m : Fin 16,
    hexVal (hexDigit m.val) = m.val ∧ isHexDigitChar (hexDigit m.val) = true ∧
      hexDigit m.val ≠ ':' ∧ hexDigit m.val ≠ ' ' ∧ hexDigit m.val ≠ '.' := by decide

/-- A decimal digit character is also a hex digit character. -/
theorem isHexDigitChar_of_isDigitChar {c : Char} (h : isDigitChar c = true) :
    isHexDigitChar c = true := by
  simp only [isDigitChar, Bool.and_eq_true, decide_eq_true_eq] at h
  simp only [isHexDigitChar, Bool.or_eq_true, Bool.and_eq_true, decide_eq_true_eq]
  omega

/-- A digit character is not a colon. -/
theorem isDigitChar_ne_colon {c : Char} (h : isDigitChar c = true) : c ≠ ':' := by
  rintro rfl; exact absurd h (by decide)

/-- A digit character is not a space. -/
theorem isDigitChar_ne_space {c : Char} (h : isDigitChar c = true) : c ≠ ' ' := by
  rintro rfl; exact absurd h (by decide)

/-- A digit character is not a dot. -/
theorem isDigitChar_ne_dot {c : Char} (h : isDigitChar c = true) : c ≠ '.' := by
  rintro rfl; exact absurd h (by decide)

/-- A hex digit character is not a colon. -/
theorem isHexDigitChar_ne_colon {c : Char} (h : isHexDigitChar c = true) : c ≠ ':' := by
  rintro rfl; exact absurd h (by decide)

/-- A hex digit character is not a space. -/
theorem isHexDigitChar_ne_space {c : Char} (h : isHexDigitChar c = true) : c ≠ ' ' := by
  rintro rfl; exact absurd h (by decide)

/-- A hex digit character is not a dot. -/
theorem isHexDigitChar_ne_dot {c : Char} (h : isHexDigitChar c = true) : c ≠ '.' := by
  rintro rfl; exact absurd h (by decide)

/-- Every character of the decimal rendering of a `u8` is a digit. -/
theorem decChars_all_digits {n : Nat} (hn : n < 256) :
    ∀ c ∈ decChars n, isDigitChar c = true := by
  intro c hc
  unfold decChars at hc
  split at hc
  · simp only [List.mem_singleton] at hc
    subst hc
    exact (decDigit_facts ⟨n, by omega⟩).2.1
  · split at hc
    · simp only [List.mem_cons, List.mem_singleton, List.not_mem_nil, or_false] at hc
      rcases hc with rfl | rfl
      · exact (decDigit_facts ⟨n / 10, by omega⟩).2.1
      · exact (decDigit_facts ⟨n % 10, by omega⟩).2.1
    · simp only [List.mem_cons, List.mem_singleton, List.not_mem_nil, or_false] at hc
      rcases hc with rfl | rfl | rfl
      · exact (decDigit_facts ⟨n / 100, by omega⟩).2.1
      · exact (decDigit_facts ⟨n / 10 % 10, by omega⟩).2.1
      · exact (decDigit_facts ⟨n % 10, by omega⟩).2.1

/-- The decimal rendering of a `u8` is nonempty. -/
theorem decChars_ne_nil (n : Nat) : decChars n ≠ [] := by
  unfold decChars
  split
  · simp
  · split <;> simp

/-- Every character of the hex rendering of a `u16` is a hex digit. -/
theorem hexChars_all_hex {n : Nat} (hn : n < 65536) :
    ∀ c ∈ hexChars n, isHexDigitChar c = true := by
  intro c hc
  unfold hexChars at hc
  split at hc
  · simp only [List.mem_singleton] at hc
    subst hc
    exact (hexDigit_facts ⟨n, by omega⟩).2.1
  · split at hc
    · simp only [List.mem_cons, List.mem_singleton, List.not_mem_nil, or_false] at hc
      rcases hc with rfl | rfl
      · exact (hexDigit_facts ⟨n / 16, by omega⟩).2.1
      · exact (hexDigit_facts ⟨n % 16, by omega⟩).2.1
    · split at hc
      · simp only [List.mem_cons, List.mem_singleton, List.not_mem_nil, or_false] at hc
        rcases hc with rfl | rfl | rfl
        · exact (hexDigit_facts ⟨n / 256, by omega⟩).2.1
        · exact (hexDigit_facts ⟨n / 16 % 16, by omega⟩).2.1
        · exact (hexDigit_facts ⟨n % 16, by omega⟩).2.1
      · simp only [List.mem_cons, List.mem_singleton, List.not_mem_nil, or_false] at hc
        rcases hc with rfl | rfl | rfl | rfl
        · exact (hexDigit_facts ⟨n / 4096, by omega⟩).2.1
        · exact (hexDigit_facts ⟨n / 256 % 16, by omega⟩).2.1
        · exact (hexDigit_facts ⟨n / 16 % 16, by omega⟩).2.1
        · exact (hexDigit_facts ⟨n % 16, by omega⟩).2.1

/-- The hex rendering of a `u16` is nonempty. -/
theorem hexChars_ne_nil (n : Nat) : hexChars n ≠ [] := by
  unfold hexChars
  split
  · simp
  · split
    · simp
    · split <;> simp

/-- Value read-back for a decimal digit, stated over `Nat`. -/
theorem decVal_decDigit {m : Nat} (h : m < 10) : decVal (decDigit m) = m :=
  (decDigit_facts ⟨m, h⟩).1

/-- A decimal digit is a digit character, stated over `Nat`. -/
theorem isDigitChar_decDigit {m : Nat} (h : m < 10) : isDigitChar (decDigit m) = true :=
  (decDigit_facts ⟨m, h⟩).2.1

/-- A decimal digit of a nonzero value is not '0', stated over `Nat`. -/
theorem decDigit_ne_zeroChar {m : Nat} (h : m < 10) (hm : m ≠ 0) : ¬ (decDigit m = '0') := by
  intro heq
  exact hm ((decDigit_eq_zero ⟨m, h⟩).mp heq)

/-- Value read-back for a hex digit, stated over `Nat`. -/
theorem hexVal_hexDigit {m : Nat} (h : m < 16) : hexVal (hexDigit m) = m :=
  (hexDigit_facts ⟨m, h⟩).1

/-- A hex digit is a hex digit character, stated over `Nat`. -/
theorem isHexDigitChar_hexDigit {m : Nat} (h : m < 16) : isHexDigitChar (hexDigit m) = true :=
  (hexDigit_facts ⟨m, h⟩).2.1

/-- Parsing the decimal rendering of an octet recovers the octet. -/
theorem parseOctet_decChars (n : Fin 256) : parseOctet (decChars n.val) = some n := by
  have hlt := n.isLt
  by_cases h10 : n.val < 10
  · have hchars : decChars n.val = [decDigit n.val] := by unfold decChars; rw [if_pos h10]
    simp [parseOctet, hchars, isDigitChar_decDigit h10, decVal_decDigit h10, Fin.ext_iff, hlt]
  · by_cases h100 : n.val < 100
    · have hz := decDigit_ne_zeroChar (m := n.val / 10) (by omega) (by omega)
      have hchars : decChars n.val = [decDigit (n.val / 10), decDigit (n.val % 10)] := by
        unfold decChars; rw [if_neg h10, if_pos h100]
      simp [parseOctet, hchars, isDigitChar_decDigit (m := n.val / 10) (by omega),
        isDigitChar_decDigit (m := n.val % 10) (by omega),
        decVal_decDigit (m := n.val / 10) (by omega),
        decVal_decDigit (m := n.val % 10) (by omega), hz, Fin.ext_iff]
      omega
    · have hz := decDigit_ne_zeroChar (m := n.val / 100) (by omega) (by omega)
      have hchars : decChars n.val =
          [decDigit (n.val / 100), decDigit (n.val / 10 % 10), decDigit (n.val % 10)] := by
        unfold decChars; rw [if_neg h10, if_neg h100]
      simp [parseOctet, hchars, isDigitChar_decDigit (m := n.val / 100) (by omega),
        isDigitChar_decDigit (m := n.val / 10 % 10) (by omega),
        isDigitChar_decDigit (m := n.val % 10) (by omega),
        decVal_decDigit (m := n.val / 100) (by omega),
        decVal_decDigit (m := n.val / 10 % 10) (by omega),
        decVal_decDigit (m := n.val % 10) (by omega), hz, Fin.ext_iff]
      omega

/-- Parsing the hex rendering of a `u16` value recovers the value. -/
theorem parseHexGroup_hexChars {n : Nat} (hn : n < 65536) :
    parseHexGroup (hexChars n) = some n := by
  by_cases h1 : n < 16
  · have hchars : hexChars n = [hexDigit n] := by unfold hexChars; rw [if_pos h1]
    simp [parseHexGroup, hchars, isHexDigitChar_hexDigit h1, hexVal_hexDigit h1]
  · by_cases h2 : n < 256
    · have hchars : hexChars n = [hexDigit (n / 16), hexDigit (n % 16)] := by
        unfold hexChars; rw [if_neg h1, if_pos h2]
      simp [parseHexGroup, hchars, isHexDigitChar_hexDigit (m := n / 16) (by omega),
        isHexDigitChar_hexDigit (m := n % 16) (by omega),
        hexVal_hexDigit (m := n / 16) (by omega),
        hexVal_hexDigit (m := n % 16) (by omega)]
      omega
    · by_cases h3 : n < 4096
      · have hchars : hexChars n =
            [hexDigit (n / 256), hexDigit (n / 16 % 16), hexDigit (n % 16)] := by
          unfold hexChars; rw [if_neg h1, if_neg h2, if_pos h3]
        simp [parseHexGroup, hchars, isHexDigitChar_hexDigit (m := n / 256) (by omega),
          isHexDigitChar_hexDigit (m := n / 16 % 16) (by omega),
          isHexDigitChar_hexDigit (m := n % 16) (by omega),
          hexVal_hexDigit (m := n / 256) (by omega),
          hexVal_hexDigit (m := n / 16 % 16) (by omega),
          hexVal_hexDigit (m := n % 16) (by omega)]
        omega
      · have hchars : hexChars n = [hexDigit (n / 4096), hexDigit (n / 256 % 16),
            hexDigit (n / 16 % 16), hexDigit (n % 16)] := by
          unfold hexChars; rw [if_neg h1, if_neg h2, if_neg h3]
        simp [parseHexGroup, hchars, isHexDigitChar_hexDigit (m := n / 4096) (by omega),
          isHexDigitChar_hexDigit (m := n / 256 % 16) (by omega),
          isHexDigitChar_hexDigit (m := n / 16 % 16) (by omega),
          isHexDigitChar_hexDigit (m := n % 16) (by omega),
          hexVal_hexDigit (m := n / 4096) (by omega),
          hexVal_hexDigit (m := n / 256 % 16) (by omega),
          hexVal_hexDigit (m := n / 16 % 16) (by omega),
          hexVal_hexDigit (m := n % 16) (by omega)]
        omega

/-! ## Splitting lemmas -/

/-- Splitting never yields an empty part list. -/
theorem splitOnChar_ne_nil (sep : Char) (cs : List Char) : splitOnChar sep cs ≠ [] := by
  induction cs with
  | nil => simp [splitOnChar]
  | cons c rest ih =>
    unfold splitOnChar
    by_cases hc : c = sep
    · rw [if_pos hc]; simp
    · rw [if_neg hc]
      split <;> simp

/-- A separator-free list splits into itself alone. -/
theorem splitOnChar_single {sep : Char} {p : List Char} (h : sep ∉ p) :
    splitOnChar sep p = [p] := by
  induction p with
  | nil => rfl
  | cons c rest ih =>
    have hc : ¬ (c = sep) := fun hh => h (by simp [hh])
    have hr : splitOnChar sep rest = [rest] := ih (fun hm => h (List.mem_cons_of_mem _ hm))
    unfold splitOnChar
    rw [if_neg hc, hr]

/-- Splitting a separator-free part followed by a separator peels off the part. -/
theorem splitOnChar_sep {sep : Char} {p zs : List Char} (h : sep ∉ p) :
    splitOnChar sep (p ++ sep :: zs) = p :: splitOnChar sep zs := by
  induction p with
  | nil =>
    simp [splitOnChar]
  | cons c rest ih =>
    have hc : ¬ (c = sep) := fun hh => h (by simp [hh])
    have hr := ih (fun hm => h (List.mem_cons_of_mem _ hm))
    simp only [List.cons_append, splitOnChar, List.append_eq, if_neg hc, hr]

/-! ## IPv4 display round trip -/

/-- Every character of an IPv4 display is a digit or a dot. -/
theorem v4_display_chars (a : Ipv4Addr) :
    ∀ c ∈ a.display, isDigitChar c = true ∨ c = '.' := by
  intro c hc
  unfold Ipv4Addr.display at hc
  simp only [List.mem_append, List.mem_cons] at hc
  rcases hc with h | h | h | h | h | h | h
  · exact Or.inl (decChars_all_digits a.o0.isLt c h)
  · exact Or.inr h
  · exact Or.inl (decChars_all_digits a.o1.isLt c h)
  · exact Or.inr h
  · exact Or.inl (decChars_all_digits a.o2.isLt c h)
  · exact Or.inr h
  · exact Or.inl (decChars_all_digits a.o3.isLt c h)

/-- An IPv4 display contains no colon. -/
theorem colon_not_mem_v4display (a : Ipv4Addr) : ':' ∉ a.display := by
  intro hm
  rcases v4_display_chars a ':' hm with h | h
  · exact isDigitChar_ne_colon h rfl
  · exact absurd h (by decide)

/-- An IPv4 display contains no space. -/
theorem space_not_mem_v4display (a : Ipv4Addr) : ' ' ∉ a.display := by
  intro hm
  rcases v4_display_chars a ' ' hm with h | h
  · exact isDigitChar_ne_space h rfl
  · exact absurd h (by decide)

/-- An IPv4 display contains a dot. -/
theorem dot_mem_v4display (a : Ipv4Addr) : '.' ∈ a.display := by
  unfold Ipv4Addr.display
  simp

/-- The dot never occurs inside one rendered octet. -/
theorem dot_not_mem_decChars {n : Nat} (hn : n < 256) : '.' ∉ decChars n := by
  intro hm
  exact (isDigitChar_ne_dot (decChars_all_digits hn _ hm)) rfl

/-- Splitting an IPv4 display on dots recovers the four rendered octets. -/
theorem v4_display_split (a : Ipv4Addr) :
    splitOnChar '.' a.display =
      [decChars a.o0.val, decChars a.o1.val, decChars a.o2.val, decChars a.o3.val] := by
  unfold Ipv4Addr.display
  rw [splitOnChar_sep (dot_not_mem_decChars a.o0.isLt),
    splitOnChar_sep (dot_not_mem_decChars a.o1.isLt),
    splitOnChar_sep (dot_not_mem_decChars a.o2.isLt),
    splitOnChar_single (dot_not_mem_decChars a.o3.isLt)]

/-- Parsing the display of an IPv4 address recovers the address. -/
theorem parseV4core_display (a : Ipv4Addr) : parseV4core a.display = some a := by
  unfold parseV4core
  rw [v4_display_split]
  simp [mapOpt, parseOctet_decChars a.o0, parseOctet_decChars a.o1,
    parseOctet_decChars a.o2, parseOctet_decChars a.o3]

/-- An IPv4 display is not a hex group (it contains a dot). -/
theorem parseHexGroup_v4display (a : Ipv4Addr) : parseHexGroup a.display = none := by
  unfold parseHexGroup
  rw [if_neg]
  intro h
  rw [List.all_eq_true] at h
  exact (isHexDigitChar_ne_dot (h.2.2 '.' (dot_mem_v4display a))) rfl

/-! ## Double-colon lemmas -/

/-- A double-colon match never starts inside colon-free text: scanning past a
colon-free part just shifts the split. -/
theorem sdcShift {p : List Char} (h : ':' ∉ p) (zs : List Char) :
    splitDoubleColon (p ++ zs) =
      (splitDoubleColon zs).map (fun ab => (p ++ ab.1, ab.2)) := by
  induction p with
  | nil =>
    cases hsz : splitDoubleColon zs <;> simp [hsz]
  | cons c rest ih =>
    have hc : ¬ (c = ':') := fun hh => h (by simp [hh])
    have hr := ih (fun hm => h (List.mem_cons_of_mem _ hm))
    simp only [List.cons_append]
    cases hrz : rest ++ zs with
    | nil =>
      have hz : zs = [] := (List.append_eq_nil.mp hrz).2
      subst hz
      simp [splitDoubleColon]
    | cons d rest2 =>
      rw [hrz] at hr
      simp only [splitDoubleColon]
      rw [if_neg (fun hand => hc hand.1), hr]
      cases hsz : splitDoubleColon zs <;> simp

/-- A colon followed by a non-colon character is not a double colon; the split
steps over it. -/
theorem sdcColonCons {c : Char} (hc : ¬ (c = ':')) (zs : List Char) :
    splitDoubleColon (':' :: c :: zs) =
      (splitDoubleColon (c :: zs)).map (fun ab => (':' :: ab.1, ab.2)) := by
  simp only [splitDoubleColon]
  rw [if_neg (fun hand => hc hand.2)]

/-- A colon-joined list of nonempty parts begins with its first part. -/
theorem joinColon_shape {q : List Char} (rest : List (List Char)) :
    ∃ ys, joinColon (q :: rest) = q ++ ys := by
  cases rest with
  | nil => exact ⟨[], by simp [joinColon]⟩
  | cons r rest2 => exact ⟨':' :: joinColon (r :: rest2), rfl⟩

/-- Joining nonempty colon-free parts yields no double colon. -/
theorem sdcJoinNone {parts : List (List Char)}
    (h : ∀ p ∈ parts, p ≠ [] ∧ ':' ∉ p) :
    splitDoubleColon (joinColon parts) = none := by
  induction parts with
  | nil => rfl
  | cons p rest ih =>
    have hp := h p (by simp)
    have hrest : ∀ r ∈ rest, r ≠ [] ∧ ':' ∉ r := fun r hr => h r (by simp [hr])
    cases rest with
    | nil =>
      have hs := sdcShift hp.2 ([] : List Char)
      rw [List.append_nil] at hs
      rw [show joinColon [p] = p from rfl, hs]
      rfl
    | cons q rest2 =>
      have hq := hrest q (by simp)
      have hJ := ih hrest
      obtain ⟨ys, hys⟩ := joinColon_shape rest2 (q := q)
      rw [show joinColon (p :: q :: rest2) = p ++ ':' :: joinColon (q :: rest2) from rfl,
        sdcShift hp.2]
      cases hcq : q with
      | nil => exact absurd hcq hq.1
      | cons qc q' =>
        have hqc : ¬ (qc = ':') := by
          intro hh
          exact hq.2 (by rw [hcq, hh]; simp)
        rw [← hcq]
        rw [show (':' :: joinColon (q :: rest2) : List Char) = ':' :: qc :: (q' ++ ys) from
            by rw [hys, hcq]; rfl,
          sdcColonCons hqc,
          show (qc :: (q' ++ ys) : List Char) = joinColon (q :: rest2) from
            by rw [hys, hcq]; rfl,
          hJ]
        rfl

/-- Splitting nonempty colon-free parts joined before an explicit double colon
finds exactly that double colon. -/
theorem sdcJoinSome {parts : List (List Char)}
    (h : ∀ p ∈ parts, p ≠ [] ∧ ':' ∉ p) (ys : List Char) :
    splitDoubleColon (joinColon parts ++ ':' :: ':' :: ys) =
      some (joinColon parts, ys) := by
  induction parts with
  | nil =>
    simp [joinColon, splitDoubleColon]
  | cons p rest ih =>
    have hp := h p (by simp)
    have hrest : ∀ r ∈ rest, r ≠ [] ∧ ':' ∉ r := fun r hr => h r (by simp [hr])
    cases rest with
    | nil =>
      rw [show joinColon [p] = p from rfl, sdcShift hp.2]
      simp [splitDoubleColon]
    | cons q rest2 =>
      have hq := hrest q (by simp)
      have hJ := ih hrest
      obtain ⟨ys2, hys⟩ := joinColon_shape rest2 (q := q)
      rw [show joinColon (p :: q :: rest2) = p ++ ':' :: joinColon (q :: rest2) from rfl,
        List.append_assoc, List.cons_append, sdcShift hp.2]
      cases hcq : q with
      | nil => exact absurd hcq hq.1
      | cons qc q' =>
        have hqc : ¬ (qc = ':') := by
          intro hh
          exact hq.2 (by rw [hcq, hh]; simp)
        rw [← hcq]
        rw [show (':' :: (joinColon (q :: rest2) ++ ':' :: ':' :: ys) : List Char) =
            ':' :: qc :: ((q' ++ ys2) ++ ':' :: ':' :: ys) from
            by rw [hys, hcq]; rfl,
          sdcColonCons hqc,
          show (qc :: ((q' ++ ys2) ++ ':' :: ':' :: ys) : List Char) =
            joinColon (q :: rest2) ++ ':' :: ':' :: ys from
            by rw [hys, hcq]; rfl,
          hJ]
        rfl

/-! ## Zero-run and group lemmas -/

/-- On any eight booleans the zero-run finder stays in bounds and, when it
reports a run longer than one, that slice really is all true. -/
theorem findZeroRun_spec8 : ∀ b0 b1 b2 b3 b4 b5 b6 b7 : Bool,
    (findZeroRun [b0, b1, b2, b3, b4, b5, b6, b7]).1 +
        (findZeroRun [b0, b1, b2, b3, b4, b5, b6, b7]).2 ≤ 8 ∧
      (1 < (findZeroRun [b0, b1, b2, b3, b4, b5, b6, b7]).2 →
        (([b0, b1, b2, b3, b4, b5, b6, b7].drop
            (findZeroRun [b0, b1, b2, b3, b4, b5, b6, b7]).1).take
            (findZeroRun [b0, b1, b2, b3, b4, b5, b6, b7]).2 =
          List.replicate (findZeroRun [b0, b1, b2, b3, b4, b5, b6, b7]).2 true)) := by
  decide

/-- If the is-zero image of a list of naturals is all true, the list is all
zeros. -/
theorem eq_replicate_zero_of_map {l : List Nat} {n : Nat}
    (h : l.map (fun s => s == 0) = List.replicate n true) : l = List.replicate n 0 := by
  induction l generalizing n with
  | nil =>
    cases n with
    | zero => rfl
    | succ m => simp [List.replicate_succ] at h
  | cons x xs ih =>
    cases n with
    | zero => simp at h
    | succ m =>
      simp only [List.map_cons, List.replicate_succ, List.cons.injEq] at h
      obtain ⟨hx, hxs⟩ := h
      have hx0 : x = 0 := by simpa using hx
      rw [List.replicate_succ, hx0, ih hxs]

/-- Rendered hex groups are nonempty and colon-free. -/
theorem hexParts_good {vs : List Nat} (hv : ∀ v ∈ vs, v < 65536) :
    ∀ p ∈ vs.map hexChars, p ≠ [] ∧ ':' ∉ p := by
  intro p hp
  rw [List.mem_map] at hp
  obtain ⟨v, hvmem, rfl⟩ := hp
  refine ⟨hexChars_ne_nil v, fun hm => ?_⟩
  exact (isHexDigitChar_ne_colon (hexChars_all_hex (hv v hvmem) _ hm)) rfl

/-- Joining nonempty parts yields a nonempty list. -/
theorem joinColon_ne_nil {parts : List (List Char)} (hne : parts ≠ [])
    (h : ∀ p ∈ parts, p ≠ []) : joinColon parts ≠ [] := by
  cases parts with
  | nil => exact absurd rfl hne
  | cons q rest =>
    obtain ⟨ys, hys⟩ := joinColon_shape rest (q := q)
    rw [hys]
    have hq := h q (by simp)
    cases q with
    | nil => exact absurd rfl hq
    | cons c q' => simp

/-- Splitting a colon-join of nonempty colon-free parts recovers the parts. -/
theorem splitOnChar_joinColon {parts : List (List Char)} (hne : parts ≠ [])
    (h : ∀ p ∈ parts, p ≠ [] ∧ ':' ∉ p) :
    splitOnChar ':' (joinColon parts) = parts := by
  induction parts with
  | nil => exact absurd rfl hne
  | cons p rest ih =>
    have hp := h p (by simp)
    have hrest : ∀ r ∈ rest, r ≠ [] ∧ ':' ∉ r := fun r hr => h r (by simp [hr])
    cases rest with
    | nil =>
      rw [show joinColon [p] = p from rfl, splitOnChar_single hp.2]
    | cons q rest2 =>
      rw [show joinColon (p :: q :: rest2) = p ++ ':' :: joinColon (q :: rest2) from rfl,
        splitOnChar_sep hp.2, ih (by simp) hrest]

/-- Parsing the hex renderings of a group list recovers the values
(`parseTailGroups`, no embedded IPv4 present). -/
theorem parseTailGroups_hex {vs : List Nat} (hv : ∀ v ∈ vs, v < 65536) :
    parseTailGroups (vs.map hexChars) = some vs := by
  induction vs with
  | nil => rfl
  | cons v vs2 ih =>
    have hvv := hv v (by simp)
    have hrest : ∀ w ∈ vs2, w < 65536 := fun w hw => hv w (by simp [hw])
    cases vs2 with
    | nil =>
      simp only [List.map_cons, List.map_nil, parseTailGroups,
        parseHexGroup_hexChars hvv]
    | cons w vs3 =>
      simp only [List.map_cons] at ih ⊢
      simp only [parseTailGroups, parseHexGroup_hexChars hvv, ih hrest]

/-- Parsing the hex renderings with `mapOpt` recovers the values. -/
theorem mapOpt_hexChars {vs : List Nat} (hv : ∀ v ∈ vs, v < 65536) :
    mapOpt parseHexGroup (vs.map hexChars) = some vs := by
  induction vs with
  | nil => rfl
  | cons v vs2 ih =>
    have hvv := hv v (by simp)
    have hrest : ∀ w ∈ vs2, w < 65536 := fun w hw => hv w (by simp [hw])
    simp only [List.map_cons, mapOpt, parseHexGroup_hexChars hvv, ih hrest]

/-- `parseHeadGroups` applied to a join of rendered hex groups. -/
theorem parseHeadGroups_join {vs : List Nat} (hv : ∀ v ∈ vs, v < 65536) :
    parseHeadGroups (joinColon (vs.map hexChars)) = some vs := by
  cases hvs : vs with
  | nil => rfl
  | cons v vs2 =>
    subst hvs
    have hgood := hexParts_good hv
    unfold parseHeadGroups
    rw [if_neg (joinColon_ne_nil (by simp) (fun p hp => (hgood p hp).1)),
      splitOnChar_joinColon (by simp) hgood, mapOpt_hexChars hv]

/-- `parseTailSide` applied to a join of rendered hex groups. -/
theorem parseTailSide_join {vs : List Nat} (hv : ∀ v ∈ vs, v < 65536) :
    parseTailSide (joinColon (vs.map hexChars)) = some vs := by
  cases hvs : vs with
  | nil => rfl
  | cons v vs2 =>
    subst hvs
    have hgood := hexParts_good hv
    unfold parseTailSide
    rw [if_neg (joinColon_ne_nil (by simp) (fun p hp => (hgood p hp).1)),
      splitOnChar_joinColon (by simp) hgood, parseTailGroups_hex hv]

/-- Repacking a value already below the bound. -/
theorem mk16_fin (v : Fin 65536) : mk16 v.val = some v := by
  unfold mk16
  rw [dif_pos v.isLt]

/-- Rebuilding an address from its own segments gives the address back. -/
theorem segsToAddr_segments (x : Ipv6Addr) : segsToAddr x.segments = some x := by
  unfold segsToAddr Ipv6Addr.segments
  simp [mapOpt, mk16_fin]

/-- Every segment value of an address is below 65536. -/
theorem segments_lt (x : Ipv6Addr) : ∀ v ∈ x.segments, v < 65536 := by
  intro v hv
  unfold Ipv6Addr.segments at hv
  simp only [List.mem_cons, List.not_mem_nil, or_false] at hv
  rcases hv with rfl | rfl | rfl | rfl | rfl | rfl | rfl | rfl <;> exact (Fin.isLt _)

/-! ## IPv6 display round trip -/

/-- The mapped form double colon, "ffff", dotted quad parses back to the
mapped segment list. -/
theorem parseV6core_mapped (a4 : Ipv4Addr) :
    parseV6core (':' :: ':' :: 'f' :: 'f' :: 'f' :: 'f' :: ':' :: a4.display) =
      some [0, 0, 0, 0, 0, 65535,
        a4.o0.val * 256 + a4.o1.val, a4.o2.val * 256 + a4.o3.val] := by
  have hsplit : splitDoubleColon
      (':' :: ':' :: 'f' :: 'f' :: 'f' :: 'f' :: ':' :: a4.display) =
      some ([], 'f' :: 'f' :: 'f' :: 'f' :: ':' :: a4.display) := by
    simp [splitDoubleColon]
  have htail : parseTailSide ('f' :: 'f' :: 'f' :: 'f' :: ':' :: a4.display) =
      some [65535, a4.o0.val * 256 + a4.o1.val, a4.o2.val * 256 + a4.o3.val] := by
    unfold parseTailSide
    rw [if_neg (by simp)]
    rw [show ('f' :: 'f' :: 'f' :: 'f' :: ':' :: a4.display : List Char) =
      ['f', 'f', 'f', 'f'] ++ ':' :: a4.display from rfl]
    rw [splitOnChar_sep (by decide), splitOnChar_single (colon_not_mem_v4display a4)]
    simp only [parseTailGroups, parseHexGroup_v4display, parseV4core_display,
      show parseHexGroup ['f', 'f', 'f', 'f'] = some 65535 from by decide]
    rfl
  unfold parseV6core
  rw [hsplit]
  simp [parseHeadGroups, htail, List.replicate]

/-- Parsing the display of an IPv6 address recovers its segments. -/
theorem parseV6core_display (x : Ipv6Addr) :
    parseV6core x.display = some x.segments := by
  unfold Ipv6Addr.display
  by_cases hmap : x.s0.val = 0 ∧ x.s1.val = 0 ∧ x.s2.val = 0 ∧ x.s3.val = 0 ∧
      x.s4.val = 0 ∧ x.s5.val = 65535
  · rw [if_pos hmap]
    obtain ⟨h0, h1, h2, h3, h4, h5⟩ := hmap
    rw [parseV6core_mapped]
    have hseg : x.segments = [0, 0, 0, 0, 0, 65535, x.s6.val, x.s7.val] := by
      unfold Ipv6Addr.segments
      rw [h0, h1, h2, h3, h4, h5]
    rw [hseg]
    dsimp only
    simp only [Option.some.injEq, List.cons.injEq, true_and, and_true]
    omega
  · rw [if_neg hmap]
    dsimp only
    have hmaplist : x.segments.map (fun s => s == 0) =
        [x.s0.val == 0, x.s1.val == 0, x.s2.val == 0, x.s3.val == 0,
         x.s4.val == 0, x.s5.val == 0, x.s6.val == 0, x.s7.val == 0] := rfl
    have hspec := findZeroRun_spec8 (x.s0.val == 0) (x.s1.val == 0) (x.s2.val == 0)
      (x.s3.val == 0) (x.s4.val == 0) (x.s5.val == 0) (x.s6.val == 0) (x.s7.val == 0)
    rw [← hmaplist] at hspec
    obtain ⟨hb, hslice⟩ := hspec
    set r := findZeroRun (x.segments.map (fun s => s == 0)) with hr
    by_cases hrun : 1 < r.2
    · rw [if_pos hrun]
      have htake_lt : ∀ v ∈ x.segments.take r.1, v < 65536 :=
        fun v hv => segments_lt x v ((List.take_sublist _ _).subset hv)
      have hdrop_lt : ∀ v ∈ x.segments.drop (r.1 + r.2), v < 65536 :=
        fun v hv => segments_lt x v ((List.drop_sublist _ _).subset hv)
      unfold parseV6core
      rw [sdcJoinSome (hexParts_good htake_lt)
        (joinColon ((x.segments.drop (r.1 + r.2)).map hexChars))]
      have hlen8 : x.segments.length = 8 := rfl
      have hlen_take : (x.segments.take r.1).length = r.1 := by
        rw [List.length_take, hlen8]
        omega
      have hlen_drop : (x.segments.drop (r.1 + r.2)).length = 8 - (r.1 + r.2) := by
        rw [List.length_drop, hlen8]
      simp only [parseHeadGroups_join htake_lt, parseTailSide_join hdrop_lt,
        hlen_take, hlen_drop]
      rw [if_pos (by omega)]
      rw [show 8 - r.1 - (8 - (r.1 + r.2)) = r.2 from by omega]
      have hzeros : (x.segments.drop r.1).take r.2 = List.replicate r.2 0 := by
        apply eq_replicate_zero_of_map
        rw [List.map_take, List.map_drop]
        exact hslice hrun
      have hrebuild : x.segments.take r.1 ++
          (List.replicate r.2 0 ++ x.segments.drop (r.1 + r.2)) = x.segments := by
        conv_rhs => rw [← List.take_append_drop r.1 x.segments]
        congr 1
        conv_rhs => rw [← List.take_append_drop r.2 (x.segments.drop r.1)]
        rw [hzeros, List.drop_drop, Nat.add_comm]
      rw [List.append_assoc, hrebuild]
    · rw [if_neg hrun]
      unfold parseV6core
      rw [sdcJoinNone (hexParts_good (segments_lt x))]
      rw [splitOnChar_joinColon (by simp [Ipv6Addr.segments]) (hexParts_good (segments_lt x))]
      rw [parseTailGroups_hex (segments_lt x)]
      simp [Ipv6Addr.segments]

/-- Parsing the display of an IPv6 address recovers the address. -/
theorem parseV6_display (x : Ipv6Addr) : parseV6 x.display = some x := by
  unfold parseV6
  rw [parseV6core_display]
  simp [segsToAddr_segments]

/-! ## Arrow-separator lemmas and key round trip -/

/-- A space-free list passes through the arrow split untouched. -/
theorem splitArrow_single {p : List Char} (h : ' ' ∉ p) : splitArrow p = [p] := by
  induction p with
  | nil => rw [splitArrow.eq_def]
  | cons c rest ih =>
    have hc : ¬ (c = ' ' ∧ rest.take 3 = ['-', '>', ' ']) :=
      fun hand => h (by rw [hand.1]; exact List.mem_cons_self _ _)
    rw [splitArrow.eq_def]
    dsimp only
    rw [if_neg hc, ih (fun hm => h (List.mem_cons_of_mem _ hm))]

/-- Splitting a space-free part followed by the arrow separator peels off the
part. -/
theorem splitArrow_sep {xs ys : List Char} (h : ' ' ∉ xs) :
    splitArrow (xs ++ ' ' :: '-' :: '>' :: ' ' :: ys) = xs :: splitArrow ys := by
  induction xs with
  | nil =>
    rw [List.nil_append, splitArrow.eq_def]
    dsimp only
    rw [if_pos ⟨rfl, rfl⟩]
    rw [show List.drop 3 ('-' :: '>' :: ' ' :: ys) = ys from rfl]
  | cons c rest ih =>
    have hc : ¬ (c = ' ' ∧ ((rest ++ ' ' :: '-' :: '>' :: ' ' :: ys).take 3 = ['-', '>', ' '])) :=
      fun hand => h (by rw [hand.1]; exact List.mem_cons_self _ _)
    rw [List.cons_append, splitArrow.eq_def]
    dsimp only
    rw [if_neg hc, ih (fun hm => h (List.mem_cons_of_mem _ hm))]

/-- A character of a colon-join is a colon or comes from some part. -/
theorem mem_joinColon {c : Char} {parts : List (List Char)} (h : c ∈ joinColon parts) :
    c = ':' ∨ ∃ p ∈ parts, c ∈ p := by
  induction parts with
  | nil => simp [joinColon] at h
  | cons p rest ih =>
    cases rest with
    | nil => exact Or.inr ⟨p, by simp, h⟩
    | cons q rest2 =>
      rw [show joinColon (p :: q :: rest2) = p ++ ':' :: joinColon (q :: rest2) from rfl] at h
      simp only [List.mem_append, List.mem_cons] at h
      rcases h with h | h | h
      · exact Or.inr ⟨p, by simp, h⟩
      · exact Or.inl h
      · rcases ih h with h2 | ⟨p2, hp2, hc2⟩
        · exact Or.inl h2
        · exact Or.inr ⟨p2, by simp [hp2], hc2⟩

/-- No space occurs in a colon-join of rendered hex groups. -/
theorem space_not_mem_joinhex {vs : List Nat} (hv : ∀ v ∈ vs, v < 65536) :
    ' ' ∉ joinColon (vs.map hexChars) := by
  intro hm
  rcases mem_joinColon hm with h | ⟨p, hp, hc⟩
  · exact absurd h (by decide)
  · rw [List.mem_map] at hp
    obtain ⟨v, hvm, rfl⟩ := hp
    exact (isHexDigitChar_ne_space (hexChars_all_hex (hv v hvm) _ hc)) rfl

/-- An IPv6 display contains no space. -/
theorem space_not_mem_v6display (x : Ipv6Addr) : ' ' ∉ x.display := by
  intro hm
  unfold Ipv6Addr.display at hm
  split at hm
  · simp only [List.mem_cons] at hm
    rcases hm with h | h | h | h | h | h | h | h
    all_goals first
      | exact absurd h (by decide)
      | exact space_not_mem_v4display _ h
  · dsimp only at hm
    split at hm
    · simp only [List.mem_append, List.mem_cons] at hm
      rcases hm with h | h | h | h
      · exact space_not_mem_joinhex
          (fun v hv => segments_lt x v ((List.take_sublist _ _).subset hv)) h
      · exact absurd h (by decide)
      · exact absurd h (by decide)
      · exact space_not_mem_joinhex
          (fun v hv => segments_lt x v ((List.drop_sublist _ _).subset hv)) h
    · exact space_not_mem_joinhex (segments_lt x) hm

/-- An IPv6 display always contains a colon. -/
theorem colon_mem_v6display (x : Ipv6Addr) : ':' ∈ x.display := by
  unfold Ipv6Addr.display
  split
  · simp
  · dsimp only
    split
    · simp
    · rw [show x.segments.map hexChars = hexChars x.s0.val :: hexChars x.s1.val ::
          (x.segments.drop 2).map hexChars from rfl]
      rw [show joinColon (hexChars x.s0.val :: hexChars x.s1.val ::
          (x.segments.drop 2).map hexChars) = hexChars x.s0.val ++ ':' ::
          joinColon (hexChars x.s1.val :: (x.segments.drop 2).map hexChars) from rfl]
      simp

/-- Deserializing the serialization of a key recovers the key. -/
theorem deserialize_serialize_key (k : StatsKey) :
    StatsKey.deserialize (StatsKey.serialize k) = some k := by
  obtain ⟨kv⟩ := k
  cases kv with
  | inl v4 =>
    obtain ⟨src, dst⟩ := v4
    unfold StatsKey.serialize StatsKey.serializeChars StatsKey.deserialize
    dsimp only
    rw [splitArrow_sep (space_not_mem_v4display src),
      splitArrow_single (space_not_mem_v4display dst)]
    dsimp only
    rw [if_neg (colon_not_mem_v4display src), parseV4core_display src,
      parseV4core_display dst]
  | inr v6 =>
    obtain ⟨src, dst⟩ := v6
    unfold StatsKey.serialize StatsKey.serializeChars StatsKey.deserialize
    dsimp only
    rw [splitArrow_sep (space_not_mem_v6display src),
      splitArrow_single (space_not_mem_v6display dst)]
    dsimp only
    rw [if_pos (colon_mem_v6display src), parseV6_display src, parseV6_display dst]

/-! ## Table lemmas -/

/-- Looking up a just-inserted key finds the inserted value. -/
theorem lookupKV_insertKV_self (t : Stats) (k : StatsKey) (v : StatsValue) :
    lookupKV (insertKV t k v) k = some v := by
  induction t with
  | nil => simp [insertKV, lookupKV]
  | cons e rest ih =>
    obtain ⟨k', v'⟩ := e
    simp only [insertKV]
    by_cases hk : k = k'
    · rw [if_pos hk]
      simp [lookupKV]
    · rw [if_neg hk]
      simp only [lookupKV]
      rw [if_neg hk, ih]

/-- Inserting does not disturb other keys. -/
theorem lookupKV_insertKV_ne {k k2 : StatsKey} (t : Stats) (v : StatsValue)
    (h : k2 ≠ k) : lookupKV (insertKV t k v) k2 = lookupKV t k2 := by
  induction t with
  | nil => simp [insertKV, lookupKV, if_neg h]
  | cons e rest ih =>
    obtain ⟨k', v'⟩ := e
    simp only [insertKV]
    by_cases hk : k = k'
    · rw [if_pos hk]
      subst hk
      simp only [lookupKV, if_neg h]
    · rw [if_neg hk]
      simp only [lookupKV]
      by_cases h2 : k2 = k'
      · rw [if_pos h2, if_pos h2]
      · rw [if_neg h2, if_neg h2, ih]

/-- Inserting an absent key appends the entry. -/
theorem insertKV_append {t : Stats} {k : StatsKey} (v : StatsValue)
    (h : lookupKV t k = none) : insertKV t k v = t ++ [(k, v)] := by
  induction t with
  | nil => rfl
  | cons e rest ih =>
    obtain ⟨k', v'⟩ := e
    simp only [lookupKV] at h
    by_cases hk : k = k'
    · rw [if_pos hk] at h
      cases h
    · rw [if_neg hk] at h
      simp only [insertKV, if_neg hk, List.cons_append, ih h]

/-- A key absent from a table and different from an appended entry's key is
absent from the extension. -/
theorem lookupKV_append_single {acc : Stats} {k2 k : StatsKey} (v : StatsValue)
    (h : lookupKV acc k2 = none) (hne : k2 ≠ k) :
    lookupKV (acc ++ [(k, v)]) k2 = none := by
  induction acc with
  | nil => simp [lookupKV, if_neg hne]
  | cons e rest ih =>
    obtain ⟨k', v'⟩ := e
    simp only [lookupKV] at h
    simp only [List.cons_append, lookupKV]
    by_cases hk : k2 = k'
    · rw [if_pos hk] at h
      cases h
    · rw [if_neg hk] at h ⊢
      exact ih h

/-- Parsing the serialized members of a distinct-keyed table into an
accumulator that misses all of its keys appends the table. -/
theorem deserializeLoop_serialize {t : Stats} (acc : Stats)
    (hd : distinctKeys t) (hacc : ∀ e ∈ t, lookupKV acc e.1 = none) :
    deserializeLoop (Stats.serialize t) acc = some (acc ++ t) := by
  induction t generalizing acc with
  | nil => simp [Stats.serialize, deserializeLoop]
  | cons e rest ih =>
    obtain ⟨k, v⟩ := e
    unfold distinctKeys at hd
    rw [List.pairwise_cons] at hd
    rw [show Stats.serialize ((k, v) :: rest) =
      (StatsKey.serialize k, v) :: Stats.serialize rest from rfl]
    simp only [deserializeLoop, deserialize_serialize_key]
    rw [insertKV_append v (hacc (k, v) (by simp))]
    have hne : ∀ e2 ∈ rest, lookupKV (acc ++ [(k, v)]) e2.1 = none := by
      intro e2 he2
      exact lookupKV_append_single v (hacc e2 (by simp [he2]))
        (fun hh => (hd.1 e2 he2) hh.symm)
    rw [ih (acc ++ [(k, v)]) hd.2 hne]
    simp

/-- Round trip of the whole table document: deserializing the serialization of
a table with distinct keys gives back exactly the table. -/
theorem deserialize_serialize {t : Stats} (hd : distinctKeys t) :
    Stats.deserialize (Stats.serialize t) = some t := by
  unfold Stats.deserialize
  rw [deserializeLoop_serialize [] hd (fun e he => rfl)]
  simp

/-! ## update_db lemmas -/

/-- Effect of `update_db` on the updated key. -/
theorem lookupKV_update_db_self (t : Stats) (k : StatsKey) (len : Nat) :
    lookupKV (update_db t (k, len)) k =
      some (StatsValue.mk
        ((((lookupKV t k).getD StatsValue.new).total_length + len) % U128MOD)
        ((((lookupKV t k).getD StatsValue.new).total_count + 1) % U128MOD)) := by
  unfold update_db
  dsimp only
  rw [lookupKV_insertKV_self]

/-- `update_db` does not disturb other keys. -/
theorem lookupKV_update_db_ne {k k2 : StatsKey} (t : Stats) (len : Nat)
    (h : k2 ≠ k) : lookupKV (update_db t (k, len)) k2 = lookupKV t k2 := by
  unfold update_db
  exact lookupKV_insertKV_ne _ _ h

/-- Reduction modulo the `u128` modulus absorbs an inner reduction on the left
summand. -/
theorem mod_add_mod_eq (a b : Nat) :
    (a % U128MOD + b) % U128MOD = (a + b) % U128MOD :=
  Nat.ModEq.add_right b (Nat.mod_modEq a U128MOD)

/-- Counting observations of a key: matching head. -/
theorem countKey_cons_self (k : StatsKey) (l0 : Nat) (obs : List (StatsKey × Nat)) :
    countKey ((k, l0) :: obs) k = countKey obs k + 1 := by
  simp [countKey]

/-- Summing lengths of a key: matching head. -/
theorem sumKey_cons_self (k : StatsKey) (l0 : Nat) (obs : List (StatsKey × Nat)) :
    sumKey ((k, l0) :: obs) k = l0 + sumKey obs k := by
  simp [sumKey]

/-- Counting observations of a key: non-matching head. -/
theorem countKey_cons_ne {k k0 : StatsKey} (l0 : Nat) (obs : List (StatsKey × Nat))
    (h : ¬ (k0 = k)) : countKey ((k0, l0) :: obs) k = countKey obs k := by
  simp [countKey, h]

/-- Summing lengths of a key: non-matching head. -/
theorem sumKey_cons_ne {k k0 : StatsKey} (l0 : Nat) (obs : List (StatsKey × Nat))
    (h : ¬ (k0 = k)) : sumKey ((k0, l0) :: obs) k = sumKey obs k := by
  simp [sumKey, h]

/-- A key with no observations contributes no length. -/
theorem sumKey_eq_zero {obs : List (StatsKey × Nat)} {k : StatsKey}
    (h : countKey obs k = 0) : sumKey obs k = 0 := by
  unfold countKey at h
  rw [List.length_eq_zero] at h
  unfold sumKey
  rw [h]
  rfl

/-- Cumulative effect of a fold of `update_db` calls on any starting table:
each key's record gains the number of its observations (modulo `2 ^ 128`) in
count and the sum of their lengths (modulo `2 ^ 128`) in length; untouched
keys keep their records, and unobserved absent keys stay absent. -/
theorem lookupKV_foldl (obs : List (StatsKey × Nat)) :
    ∀ (t : Stats) (k : StatsKey),
      lookupKV (obs.foldl update_db t) k =
        match lookupKV t k with
        | none =>
          if countKey obs k = 0 then none
          else some (StatsValue.mk (sumKey obs k % U128MOD) (countKey obs k % U128MOD))
        | some v =>
          if countKey obs k = 0 then some v
          else some (StatsValue.mk ((v.total_length + sumKey obs k) % U128MOD)
            ((v.total_count + countKey obs k) % U128MOD)) := by
  induction obs with
  | nil =>
    intro t k
    simp only [List.foldl_nil, countKey, sumKey, List.filter_nil, List.length_nil,
      List.map_nil, List.sum_nil]
    cases lookupKV t k <;> simp
  | cons o obs ih =>
    intro t k
    obtain ⟨k0, l0⟩ := o
    rw [List.foldl_cons, ih (update_db t (k0, l0)) k]
    by_cases hk : k = k0
    · subst hk
      rw [lookupKV_update_db_self, countKey_cons_self, sumKey_cons_self]
      cases hlt : lookupKV t k with
      | none =>
        simp only [Option.getD_none]
        by_cases hc : countKey obs k = 0
        · rw [if_pos hc, if_neg (by omega)]
          rw [sumKey_eq_zero hc, hc]
          simp [StatsValue.new]
        · rw [if_neg hc, if_neg (by omega)]
          simp only [StatsValue.new]
          rw [mod_add_mod_eq, mod_add_mod_eq]
          have hsum : 0 + l0 + sumKey obs k = l0 + sumKey obs k := by omega
          have hcnt : 0 + 1 + countKey obs k = countKey obs k + 1 := by omega
          rw [hsum, hcnt]
      | some v =>
        simp only [Option.getD_some]
        by_cases hc : countKey obs k = 0
        · rw [if_pos hc, if_neg (by omega)]
          rw [sumKey_eq_zero hc, hc]
          simp
        · rw [if_neg hc, if_neg (by omega)]
          rw [mod_add_mod_eq, mod_add_mod_eq]
          have hsum : v.total_length + l0 + sumKey obs k =
              v.total_length + (l0 + sumKey obs k) := by omega
          have hcnt : v.total_count + 1 + countKey obs k =
              v.total_count + (countKey obs k + 1) := by omega
          rw [hsum, hcnt]
    · rw [lookupKV_update_db_ne t l0 hk, countKey_cons_ne l0 obs (fun hh => hk hh.symm),
        sumKey_cons_ne l0 obs (fun hh => hk hh.symm)]

/-- Every observation of a replicated sequence carries the key. -/
theorem countKey_replicate (n : Nat) (k : StatsKey) (l : Nat) :
    countKey (List.replicate n (k, l)) k = n := by
  induction n with
  | zero => rfl
  | succ m ih => rw [List.replicate_succ, countKey_cons_self, ih]

/-- A replicated zero-length sequence sums to zero. -/
theorem sumKey_replicate_zero (n : Nat) (k : StatsKey) :
    sumKey (List.replicate n (k, 0)) k = 0 := by
  induction n with
  | zero => rfl
  | succ m ih => rw [List.replicate_succ, sumKey_cons_self, ih]

/-! ## Claim theorems -/

/-- C1, counterexample: the claim promises `total_count` equals the exact
number of observations for every finite sequence; over a sequence of `2 ^ 128`
observations of one pair (each of declared length 0) the `u128` counter wraps
to 0, not `2 ^ 128`, so the table does not hold the claimed record. -/
theorem C1_counterexample :
    lookupKV (applyObservations (List.replicate (2 ^ 128) (keyA, 0))) keyA =
      some (StatsValue.mk 0 0) ∧
    lookupKV (applyObservations (List.replicate (2 ^ 128) (keyA, 0))) keyA ≠
      some (StatsValue.mk 0 (2 ^ 128)) := by
  have h : lookupKV (applyObservations (List.replicate (2 ^ 128) (keyA, 0))) keyA =
      some (StatsValue.mk 0 0) := by
    unfold applyObservations
    rw [lookupKV_foldl, show lookupKV ([] : Stats) keyA = none from rfl,
      countKey_replicate, sumKey_replicate_zero]
    rw [if_neg (by positivity)]
    rw [show (2 ^ 128) % U128MOD = 0 from by unfold U128MOD; exact Nat.mod_self _,
      Nat.zero_mod]
  refine ⟨h, ?_⟩
  rw [h]
  intro hcon
  simp only [Option.some.injEq, StatsValue.mk.injEq] at hcon
  have := hcon.2
  norm_num at this

/-- C1 (amended): starting from the empty table, after any finite sequence of
observations each observed pair's record holds the number of its observations
reduced modulo `2 ^ 128` as `total_count` and the sum of its declared lengths
reduced modulo `2 ^ 128` as `total_length` (the `u128` accumulators wrap); in
particular these are exact whenever count and sum are below `2 ^ 128`.  A pair
never observed is absent from the table. -/
theorem C1_counts_and_sums (obs : List (StatsKey × Nat)) (k : StatsKey) :
    lookupKV (applyObservations obs) k =
      if countKey obs k = 0 then none
      else some (StatsValue.mk (sumKey obs k % U128MOD) (countKey obs k % U128MOD)) := by
  unfold applyObservations
  rw [lookupKV_foldl, show lookupKV ([] : Stats) k = none from rfl]

/-- C2: deserializing the serialization of any table (keys unique, as in the
`HashMap` the code serializes) yields the table back exactly, for any number
of entries of either address family. -/
theorem C2_roundtrip (t : Stats) (hd : distinctKeys t) :
    Stats.deserialize (Stats.serialize t) = some t :=
  deserialize_serialize hd

/-- Witness for C2 at a concrete mixed-family two-entry table. -/
theorem C2_witness :
    distinctKeys tableEx ∧ Stats.deserialize (Stats.serialize tableEx) = some tableEx :=
  ⟨by decide, C2_roundtrip tableEx (by decide)⟩

/-- C6: ordered pairs are direction-sensitive keys in both families, and the
two family variants are never equal. -/
theorem C6_key_distinctness :
    (∀ a b : Ipv4Addr, a ≠ b →
      StatsKey.mk (Sum.inl ⟨a, b⟩) ≠ StatsKey.mk (Sum.inl ⟨b, a⟩)) ∧
    (∀ a b : Ipv6Addr, a ≠ b →
      StatsKey.mk (Sum.inr ⟨a, b⟩) ≠ StatsKey.mk (Sum.inr ⟨b, a⟩)) ∧
    (∀ (k4 : Ipv4StatsKey) (k6 : Ipv6StatsKey),
      StatsKey.mk (Sum.inl k4) ≠ StatsKey.mk (Sum.inr k6)) := by
  refine ⟨?_, ?_, ?_⟩
  · intro a b hab hcon
    simp only [StatsKey.mk.injEq, Sum.inl.injEq, Ipv4StatsKey.mk.injEq] at hcon
    exact hab hcon.1
  · intro a b hab hcon
    simp only [StatsKey.mk.injEq, Sum.inr.injEq, Ipv6StatsKey.mk.injEq] at hcon
    exact hab hcon.1
  · intro k4 k6 hcon
    simp only [StatsKey.mk.injEq] at hcon
    cases hcon

/-- Witness for C6 at concrete addresses. -/
theorem C6_witness :
    StatsKey.mk (Sum.inl ⟨addrA, addrB⟩) ≠ StatsKey.mk (Sum.inl ⟨addrB, addrA⟩) ∧
    StatsKey.mk (Sum.inr ⟨addr6A, addr6B⟩) ≠ StatsKey.mk (Sum.inr ⟨addr6B, addr6A⟩) ∧
    StatsKey.mk (Sum.inl ⟨addrA, addrB⟩) ≠ StatsKey.mk (Sum.inr ⟨addr6A, addr6B⟩) :=
  ⟨C6_key_distinctness.1 addrA addrB (by decide),
   C6_key_distinctness.2.1 addr6A addr6B (by decide),
   C6_key_distinctness.2.2 ⟨addrA, addrB⟩ ⟨addr6A, addr6B⟩⟩

/-- C7, counterexample: the claim promises both fields never decrease under
`update_db` for every table state; at the `u128` wrap boundary the length
accumulator wraps from `2 ^ 128 - 1` down to 0. -/
theorem C7_counterexample :
    lookupKV (update_db [(keyA, StatsValue.mk (2 ^ 128 - 1) 0)] (keyA, 1)) keyA =
      some (StatsValue.mk 0 1) ∧
    ¬ ((2 ^ 128 - 1 : Nat) ≤ 0) := by
  constructor
  · rw [lookupKV_update_db_self,
      show lookupKV [(keyA, StatsValue.mk (2 ^ 128 - 1) 0)] keyA =
        some (StatsValue.mk (2 ^ 128 - 1) 0) from by simp [lookupKV]]
    simp only [Option.getD_some]
    norm_num [U128MOD]
  · norm_num

/-- C7 (amended): a single `update_db` call leaves every key other than the
updated one with its record unchanged, unconditionally (wrap boundary or not);
on the updated key both fields are non-decreasing provided the 128-bit
additions do not overflow (`total_count + 1 < 2 ^ 128` and
`total_length + length < 2 ^ 128`); with wrapping arithmetic a field of the
updated key can otherwise decrease. -/
theorem C7_monotone_no_overflow (t : Stats) (ob : StatsKey × Nat) :
    (∀ k, k ≠ ob.1 → lookupKV (update_db t ob) k = lookupKV t k) ∧
    (∀ v, lookupKV t ob.1 = some v →
      v.total_count + 1 < U128MOD → v.total_length + ob.2 < U128MOD →
      ∃ v2, lookupKV (update_db t ob) ob.1 = some v2 ∧
        v.total_length ≤ v2.total_length ∧ v.total_count ≤ v2.total_count) := by
  obtain ⟨k0, l0⟩ := ob
  constructor
  · intro k hk
    exact lookupKV_update_db_ne t l0 hk
  · intro v hv hcnt hlen
    refine ⟨_, lookupKV_update_db_self t k0 l0, ?_, ?_⟩
    · dsimp only
      rw [hv]
      dsimp only [Option.getD_some]
      rw [Nat.mod_eq_of_lt hlen]
      omega
    · dsimp only
      rw [hv]
      dsimp only [Option.getD_some]
      rw [Nat.mod_eq_of_lt hcnt]
      omega

/-- Witness for C7: a non-updated key's record is untouched, and on the
updated key (a concrete record far from the wrap boundary) both fields grow. -/
theorem C7_witness :
    lookupKV (update_db [(keyA, StatsValue.mk 100 1)] (keyA, 50)) key6 =
      lookupKV [(keyA, StatsValue.mk 100 1)] key6 ∧
    ∃ v2, lookupKV (update_db [(keyA, StatsValue.mk 100 1)] (keyA, 50)) keyA = some v2 ∧
      (100 : Nat) ≤ v2.total_length ∧ (1 : Nat) ≤ v2.total_count := by
  have h := C7_monotone_no_overflow [(keyA, StatsValue.mk 100 1)] (keyA, 50)
  exact ⟨h.1 key6 (by decide),
    h.2 (StatsValue.mk 100 1) (by simp [lookupKV]) (by norm_num [U128MOD])
      (by norm_num [U128MOD])⟩

/-- C8: serving a query returns the serialization of the current snapshot as
the complete response (under the map's key-uniqueness invariant the whole
table is recoverable from it) and leaves the table unchanged; the handler is a
total function of the store state, so it cannot fail on any store state. -/
theorem C8_query_handler (db : Stats) :
    (http_handler db).2 = db ∧
    (http_handler db).1 = Stats.serialize db ∧
    (distinctKeys db → Stats.deserialize ((http_handler db).1) = some db) := by
  refine ⟨rfl, rfl, fun hd => ?_⟩
  exact deserialize_serialize hd

/-- Witness for C8 at a concrete mixed-family table. -/
theorem C8_witness :
    (http_handler tableEx).2 = tableEx ∧
    (http_handler tableEx).1 = Stats.serialize tableEx ∧
    Stats.deserialize ((http_handler tableEx).1) = some tableEx :=
  ⟨(C8_query_handler tableEx).1, (C8_query_handler tableEx).2.1,
   (C8_query_handler tableEx).2.2 (by decide)⟩

/-- C3: the classifier is a total function over byte buffers and returns a
classification failure (not a crash) for each of the listed bad inputs: the
empty buffer, any buffer shorter than the 14-byte Ethernet header, any buffer
declaring IPv6 whose IP payload is shorter than 40 bytes, and any buffer
declaring an ethertype other than IPv4/IPv6. -/
theorem C3_classifier_failures (p : List Byte) :
    (p.length = 0 → proc_packet p = none) ∧
    (p.length < 14 → proc_packet p = none) ∧
    (14 ≤ p.length → be16 (p.getD 12 0) (p.getD 13 0) = EtherTypeIpv6 →
      p.length < 54 → proc_packet p = none) ∧
    (14 ≤ p.length → be16 (p.getD 12 0) (p.getD 13 0) ≠ EtherTypeIpv4 →
      be16 (p.getD 12 0) (p.getD 13 0) ≠ EtherTypeIpv6 → proc_packet p = none) := by
  refine ⟨?_, ?_, ?_, ?_⟩
  · intro h
    unfold proc_packet
    rw [if_pos (by omega)]
  · intro h
    unfold proc_packet
    rw [if_pos h]
  · intro h14 hety hlen
    unfold proc_packet
    rw [if_neg (by omega)]
    dsimp only
    rw [if_neg (by rw [hety]; decide), if_pos hety,
      if_pos (by rw [List.length_drop]; omega)]
  · intro h14 hne4 hne6
    unfold proc_packet
    rw [if_neg (by omega)]
    dsimp only
    rw [if_neg hne4, if_neg hne6]

/-- Witness for C3 at four concrete bad frames. -/
theorem C3_witness :
    proc_packet [] = none ∧
    proc_packet (List.replicate 13 0) = none ∧
    proc_packet pkt6short = none ∧
    proc_packet pktunk = none :=
  ⟨(C3_classifier_failures []).1 rfl,
   (C3_classifier_failures (List.replicate 13 0)).2.1 (by decide),
   (C3_classifier_failures pkt6short).2.2.1 (by decide) (by decide) (by decide),
   (C3_classifier_failures pktunk).2.2.2 (by decide) (by decide) (by decide)⟩

/-- C5: on every successful classification the declared length comes from the
parsed network-layer header: for an IPv4 key it is the big-endian total-length
field at IP header offsets 2-3 (header plus payload as declared), for an IPv6
key the big-endian payload-length field at IP header offsets 4-5 (payload
only); the two families read different fields and are not normalized. -/
theorem C5_declared_length (p : List Byte) (k : StatsKey) (len : Nat)
    (h : proc_packet p = some (k, len)) :
    (∀ v4k, k.val = Sum.inl v4k →
      len = be16 ((p.drop 14).getD 2 0) ((p.drop 14).getD 3 0)) ∧
    (∀ v6k, k.val = Sum.inr v6k →
      len = be16 ((p.drop 14).getD 4 0) ((p.drop 14).getD 5 0)) := by
  unfold proc_packet at h
  split at h
  · exact Option.noConfusion h
  · dsimp only at h
    split at h
    · split at h
      · exact Option.noConfusion h
      · injection h with h2
        cases h2
        constructor
        · intro v4k hkv
          rfl
        · intro v6k hkv
          exact Sum.noConfusion hkv
    · split at h
      · split at h
        · exact Option.noConfusion h
        · injection h with h2
          cases h2
          constructor
          · intro v4k hkv
            exact Sum.noConfusion hkv
          · intro v6k hkv
            rfl
      · exact Option.noConfusion h

/-- Witness for C5 at a concrete IPv4 frame whose total-length field (100)
differs from the physical buffer size (34 bytes). -/
theorem C5_witness :
    proc_packet v4frame = some (keyA, 100) ∧
    (100 : Nat) = be16 ((v4frame.drop 14).getD 2 0) ((v4frame.drop 14).getD 3 0) ∧
    v4frame.length = 34 :=
  ⟨by decide,
   (C5_declared_length v4frame keyA 100 (by decide)).1 ⟨addrA, addrB⟩ (by decide),
   by decide⟩

/-- The declared length a successful classification returns widens a 16-bit
field, hence is below 65536. -/
theorem proc_packet_len_lt (p : List Byte) (k : StatsKey) (len : Nat)
    (h : proc_packet p = some (k, len)) : len < 65536 := by
  unfold proc_packet at h
  split at h
  · exact Option.noConfusion h
  · dsimp only at h
    split at h
    · split at h
      · exact Option.noConfusion h
      · injection h with h2
        cases h2
        unfold be16
        have h1 := Fin.isLt ((p.drop 14).getD 2 0)
        have h2 := Fin.isLt ((p.drop 14).getD 3 0)
        omega
    · split at h
      · split at h
        · exact Option.noConfusion h
        · injection h with h2
          cases h2
          unfold be16
          have h1 := Fin.isLt ((p.drop 14).getD 4 0)
          have h2 := Fin.isLt ((p.drop 14).getD 5 0)
          omega
      · exact Option.noConfusion h

/-- C10: a successfully classified frame's declared length is the widening of
a 16-bit header field, so it is at most 65535; consequently one `update_db`
with it raises any record's 128-bit `total_length` by at most 65535 over its
previous value (0 for a fresh record). -/
theorem C10_length_bounded (p : List Byte) (k : StatsKey) (len : Nat)
    (h : proc_packet p = some (k, len)) :
    len ≤ 65535 ∧
    ∀ (db : Stats) (k2 : StatsKey) (v2 : StatsValue),
      lookupKV (update_db db (k, len)) k2 = some v2 →
      v2.total_length ≤
        (match lookupKV db k2 with
         | some v => v.total_length
         | none => 0) + 65535 := by
  have hlt := proc_packet_len_lt p k len h
  refine ⟨by omega, ?_⟩
  intro db k2 v2 hv2
  by_cases hk : k2 = k
  · subst hk
    rw [lookupKV_update_db_self] at hv2
    injection hv2 with hv2
    subst hv2
    dsimp only
    cases hdb : lookupKV db k2 with
    | none =>
      dsimp only [Option.getD_none, StatsValue.new]
      have hmle := Nat.mod_le (0 + len) U128MOD
      omega
    | some v =>
      dsimp only [Option.getD_some]
      have hmle := Nat.mod_le (v.total_length + len) U128MOD
      omega
  · rw [lookupKV_update_db_ne db len hk] at hv2
    rw [hv2]
    dsimp only
    omega

/-- Witness for C10 at the concrete IPv4 frame: length 100, and a fresh
record's length stays within 0 + 65535. -/
theorem C10_witness :
    (100 : Nat) ≤ 65535 ∧ (100 : Nat) ≤ 0 + 65535 := by
  have h := C10_length_bounded v4frame keyA 100 (by decide)
  refine ⟨h.1, ?_⟩
  have h2 := h.2 [] keyA (StatsValue.mk 100 1) (by decide)
  simp at h2
  omega

/-- C4, counterexample: the claim promises that after every successful
observation the serialized snapshot durably overwrites the storage; on a
concrete successfully classified frame the capture step leaves the storage
exactly as it was (here empty), which is not the serialization of the updated
table, because the capture loop contains no persistence code at all. -/
theorem C4_counterexample :
    (proc_packet v4frame).isSome = true ∧
    (capture_step (SysState.mk [] []) v4frame).storage = [] ∧
    (capture_step (SysState.mk [] []) v4frame).storage ≠
      Stats.serialize ((capture_step (SysState.mk [] []) v4frame).db) := by
  refine ⟨by decide, by decide, by decide⟩

/-- C4 (amended): each iteration of the capture loop on a frame updates the
in-memory table synchronously (via `update_db` on classification success,
leaving it unchanged on failure) before the next frame is pulled, and performs
no persistence: the storage contents are unchanged by every capture step. -/
theorem C4_no_persistence (s : SysState) (p : List Byte) :
    (capture_step s p).storage = s.storage ∧
    (∀ ob, proc_packet p = some ob → (capture_step s p).db = update_db s.db ob) ∧
    (proc_packet p = none → (capture_step s p).db = s.db) := by
  unfold capture_step
  cases hp : proc_packet p with
  | none =>
    exact ⟨rfl, fun ob hob => Option.noConfusion hob, fun hcon => rfl⟩
  | some ob0 =>
    refine ⟨rfl, fun ob hob => ?_, fun hcon => Option.noConfusion hcon⟩
    injection hob with hob
    rw [← hob]

/-- Witness for C4 at the concrete IPv4 frame. -/
theorem C4_witness :
    (capture_step (SysState.mk [] []) v4frame).storage = [] ∧
    (capture_step (SysState.mk [] []) v4frame).db = update_db [] (keyA, 100) := by
  have h := C4_no_persistence (SysState.mk [] []) v4frame
  exact ⟨h.1, h.2.1 (keyA, 100) (by decide)⟩

/-- C9: `StatsKey` deserialization rejects any string that does not split into
exactly two parts on the arrow separator; when it does split, the family is
decided solely by whether the source part contains a colon and both parts are
parsed in that one family, so the mixed-family strings "1.2.3.4 -> ::1" and
"::1 -> 1.2.3.4" are rejected. -/
theorem C9_deserialize_dispatch :
    (∀ s : String, (splitArrow s.data).length ≠ 2 → StatsKey.deserialize s = none) ∧
    (∀ (s : String) (a b : List Char), splitArrow s.data = [a, b] →
      StatsKey.deserialize s =
        (if ':' ∈ a then
          match parseV6 a, parseV6 b with
          | some x, some y => some (StatsKey.mk (Sum.inr (Ipv6StatsKey.mk x y)))
          | _, _ => none
        else
          match parseV4core a, parseV4core b with
          | some x, some y => some (StatsKey.mk (Sum.inl (Ipv4StatsKey.mk x y)))
          | _, _ => none)) ∧
    StatsKey.deserialize "1.2.3.4 -> ::1" = none ∧
    StatsKey.deserialize "::1 -> 1.2.3.4" = none := by
  have hsp1 : splitArrow ("1.2.3.4 -> ::1".data) = ["1.2.3.4".data, "::1".data] := by
    rw [show ("1.2.3.4 -> ::1".data : List Char) =
      "1.2.3.4".data ++ ' ' :: '-' :: '>' :: ' ' :: "::1".data from by decide]
    rw [splitArrow_sep (by decide), splitArrow_single (by decide)]
  have hsp2 : splitArrow ("::1 -> 1.2.3.4".data) = ["::1".data, "1.2.3.4".data] := by
    rw [show ("::1 -> 1.2.3.4".data : List Char) =
      "::1".data ++ ' ' :: '-' :: '>' :: ' ' :: "1.2.3.4".data from by decide]
    rw [splitArrow_sep (by decide), splitArrow_single (by decide)]
  refine ⟨?_, ?_, ?_, ?_⟩
  · intro s hlen
    unfold StatsKey.deserialize
    cases hsp : splitArrow s.data with
    | nil => rfl
    | cons a rest =>
      cases rest with
      | nil => rfl
      | cons b rest2 =>
        cases rest2 with
        | nil => exact absurd (by rw [hsp]; rfl) hlen
        | cons c rest3 => rfl
  · intro s a b hsp
    unfold StatsKey.deserialize
    rw [hsp]
  · unfold StatsKey.deserialize
    rw [hsp1]
    dsimp only
    rw [if_neg (by decide)]
    rw [show parseV4core ("::1".data) = none from by decide]
    cases parseV4core ("1.2.3.4".data) <;> rfl
  · unfold StatsKey.deserialize
    rw [hsp2]
    dsimp only
    rw [if_pos (by decide)]
    rw [show parseV6 ("1.2.3.4".data) = none from by decide]
    cases parseV6 ("::1".data) <;> rfl

/-- Witness for C9: a separator-free string and a three-part string are both
rejected. -/
theorem C9_witness :
    StatsKey.deserialize "abc" = none ∧
    StatsKey.deserialize "1.2.3.4 -> 5.6.7.8 -> 9.9.9.9" = none := by
  constructor
  · refine C9_deserialize_dispatch.1 "abc" ?_
    rw [splitArrow_single (by decide)]
    decide
  · refine C9_deserialize_dispatch.1 "1.2.3.4 -> 5.6.7.8 -> 9.9.9.9" ?_
    rw [show ("1.2.3.4 -> 5.6.7.8 -> 9.9.9.9".data : List Char) =
      "1.2.3.4".data ++ ' ' :: '-' :: '>' :: ' ' ::
        ("5.6.7.8".data ++ ' ' :: '-' :: '>' :: ' ' :: "9.9.9.9".data) from by decide]
    rw [splitArrow_sep (by decide), splitArrow_sep (by decide),
      splitArrow_single (by decide)]
    decide
